import Mathlib

/-!
Verification of the `commands/ui` rendering facade

A shallow embedding of `commands/ui/ui.go`, and of `processURL` of `commands/v2/api_command.go`.

* A Go `map[string]interface{}` is a finite partial function from keys to values; it is
  embedded as `KeyMap := String → Option Value`, so that `m[key] = v` is a pointwise update
  and `range m` visits every key of `m` exactly once.
* An `io.Writer` is embedded as the string of all bytes written to it so far.
* The three libraries the file calls are embedded on the part of their input language the
  facade is specified on: `text/template` on templates made of literal text and field
  placeholders, `fmt.Fprintf` without operands on formats whose directives are bare verbs,
  and `fatih/color` on one colour attribute with optional bold.  A call that leaves this part
  yields `Outcome.unsupported`, about which nothing is proved.
-/

namespace CfUi

/-! ## Values and maps -/

/-- The values stored in a substitution map (`interface{}` restricted to strings, integers and
booleans). -/
inductive Value where
  | str (s : String)
  | int (n : Int)
  | bool (b : Bool)
  deriving DecidableEq, Repr

/-- A Go `map[string]interface{}`: `m key = none` when `key` is not in the map. -/
abbrev KeyMap := String → Option Value

/-- The map literal `map[string]interface{}{}`. -/
def KeyMap.empty : KeyMap := fun _ => none

/-- The assignment `m[key] = v`. -/
def KeyMap.set (m : KeyMap) (key : String) (v : Value) : KeyMap :=
  fun k => if k = key then some v else m k

/-- The loop `for key, value := range minor { main[key] = value }`: every key of `minor` is
assigned into `main`, the other keys of `main` stay. -/
def KeyMap.assignAll (main minor : KeyMap) : KeyMap :=
  fun key => match minor key with
    | some value => some value
    | none => main key

/-- A map built from a list of entries, as a Go map literal does (for concrete inputs). -/
def KeyMap.ofList (entries : List (String × Value)) : KeyMap :=
  entries.foldl (fun m e => m.set e.1 e.2) KeyMap.empty

/-- The function `fmt.Sprint(value)` for one value; it is also how `text/template` prints the
value of a placeholder. -/
def Sprint : Value → String
  | .str s => s
  | .int n => toString n
  | .bool b => if b then "true" else "false"

/-! ## The facade state -/

/-- The type `config.ColorSetting`. -/
inductive ColorSetting where
  | ColorDisbled
  | ColorEnabled
  | ColorAuto
  deriving DecidableEq, Repr

/-- The type `UI` of `ui.go`. `Out` and `Err` hold the bytes written so far. `translate` takes the
translation ID and the variadic arguments (an argument is a map, or `none` for Go `nil`).
`NoColor` is the package-level flag `color.NoColor` of the colour library, which a printer
consults when neither `EnableColor` nor `DisableColor` was called on it. -/
structure UI where
  Out : String
  Err : String
  colorEnabled : ColorSetting
  translate : String → List (Option KeyMap) → String
  NoColor : Bool

/-- The constructor `NewTestUI(out, err)`: colour disabled, identity translation. `NoColor` is not
read under `ColorDisbled`. -/
def NewTestUI (out err : String) : UI :=
  { Out := out, Err := err, colorEnabled := .ColorDisbled,
    translate := fun s _ => s, NoColor := true }

/-- Which of the two writers of the UI a call writes to. -/
inductive Writer where
  | Out
  | Err
  deriving DecidableEq, Repr

/-- One write of `s` to the chosen writer. -/
def UI.write (ui : UI) (w : Writer) (s : String) : UI :=
  match w with
  | .Out => { ui with Out := ui.Out ++ s }
  | .Err => { ui with Err := ui.Err ++ s }

/-- How a call ends: it returns, it panics (the UI is the state at the panic), or it leaves the
embedded part of a library. -/
inductive Outcome where
  | completed (ui : UI)
  | panicked (ui : UI)
  | unsupported

/-- A call that may assign into a map of its caller: its outcome, and the caller's maps after
the call. -/
structure Effect where
  outcome : Outcome
  keys : List KeyMap

/-! ## mergeMap -/

/-- The method `UI.mergeMap`. -/
def mergeMap (maps : List KeyMap) : KeyMap :=
  match maps with
  | [only] => only
  | _ => maps.foldl (fun main minor => main.assignAll minor) KeyMap.empty

/-- The reference merge in the words of the specification: the value of `k` in the last map
of the sequence that contains `k`, and nothing when no map contains it. -/
def rightmostWins : List KeyMap → String → Option Value
  | [], _ => none
  | m :: rest, k =>
    match rightmostWins rest k with
    | some v => some v
    | none => m k

/-! ## colorize -/

/-- The colour attribute `red` of `ui.go`, `color.FgRed` (`color.Attribute` is an `int`). -/
def red : Int := 31

/-- The colour attribute `green`, `color.FgGreen`. -/
def green : Int := 32

/-- The colour attribute `cyan`, `color.FgCyan`. -/
def cyan : Int := 36

/-- The constant `defaultFgColor`. -/
def defaultFgColor : Int := 38

/-- The escape character `\x1b`. -/
def escape : String := "\x1b"

/-- The method `UI.colorize`. The printer prints `ESC[<params>m`, the message and `ESC[0m`, with
the parameters joined by `;` (`Bold` is `1`), unless colour is off for it. -/
def colorize (ui : UI) (message : String) (textColor : Int) (bold : Bool) : String :=
  let noColor : Bool :=
    match ui.colorEnabled with
    | .ColorEnabled => false
    | .ColorDisbled => true
    | .ColorAuto => ui.NoColor
  let params : String := if bold then toString textColor ++ ";1" else toString textColor
  if noColor then message
  else escape ++ "[" ++ params ++ "m" ++ message ++ escape ++ "[0m"

/-! ## text/template on literal text and field placeholders -/

/-- The left delimiter character of an action. -/
def leftBrace : Char := Char.ofNat 123

/-- The right delimiter character of an action. -/
def rightBrace : Char := Char.ofNat 125

/-- A node of a parsed template: literal text, or the action that prints the field `name` of the
data (a placeholder, written with the field name after a dot between the delimiters). -/
inductive Node where
  | text (s : String)
  | field (name : String)
  deriving DecidableEq, Repr

/-- The result of `template.New(name).Parse(text)`: a template, a parse error, or a template
that uses an action other than a field placeholder. -/
inductive Parsed where
  | ok (nodes : List Node)
  | malformed
  | unsupported
  deriving DecidableEq, Repr

/-- Splits at the first doubled `b`: the characters before it and the characters after it;
`none` when the input holds no doubled `b`. -/
def findDelim (b : Char) : List Char → Option (List Char × List Char)
  | [] => none
  | c :: rest =>
    if c = b ∧ rest.head? = some b then some ([], rest.tail)
    else (findDelim b rest).map (fun p => (c :: p.1, p.2))

/-- The blanks the lexer skips inside an action. -/
def isBlank (c : Char) : Bool := c = ' ' || c = '\t'

/-- The characters of a field name. -/
def isNameChar (c : Char) : Bool := c.isAlphanum || c = '_'

/-- The field name of an action body of the form blanks, dot, name, blanks, where the name is a
non-empty run of letters, digits and underscores that does not start with a digit; `none` for
every other body. -/
def fieldName (body : List Char) : Option String :=
  match (body.dropWhile isBlank).reverse.dropWhile isBlank |>.reverse with
  | '.' :: c :: cs =>
    if isNameChar c ∧ ¬ c.isDigit ∧ cs.all isNameChar then some (String.mk (c :: cs)) else none
  | _ => none

/-- The text node for a run of literal text; an empty run gives no node. -/
def textNode (cs : List Char) : List Node :=
  if cs.isEmpty then [] else [Node.text (String.mk cs)]

/-- The parser, one action per unit of fuel. Text runs to the next left delimiter; an action whose
right delimiter never comes is a parse error; an action body that is not a field placeholder is
outside the embedded part. -/
def parseNodes : Nat → List Char → Parsed
  | 0, _ => .unsupported
  | fuel + 1, cs =>
    match findDelim leftBrace cs with
    | none => .ok (textNode cs)
    | some (before, inside) =>
      match findDelim rightBrace inside with
      | none => .malformed
      | some (body, after) =>
        match fieldName body with
        | none => .unsupported
        | some name =>
          match parseNodes fuel after with
          | .ok nodes => .ok (textNode before ++ Node.field name :: nodes)
          | .malformed => .malformed
          | .unsupported => .unsupported

/-- The call `template.New("Display Text").Parse(text)`. The fuel exceeds the number of actions,
each of which takes at least four characters. -/
def Parse (text : String) : Parsed := parseNodes (text.length + 1) text.data

/-- What `Execute` writes for one node. A field that is not a key of the map prints as
`<no value>`, the default `missingkey` behaviour, and is no error. -/
def executeNode (data : KeyMap) : Node → String
  | .text s => s
  | .field name =>
    match data name with
    | some v => Sprint v
    | none => "<no value>"

/-- The bytes `formattedTemplate.Execute(writer, data)` writes for a parsed template. On these
templates `Execute` returns no error (and the facade discards the error it returns). -/
def Execute (nodes : List Node) (data : KeyMap) : String :=
  nodes.foldl (fun written node => written ++ executeNode data node) ""

/-- The field names a parsed template refers to. -/
def placeholders : List Node → List String
  | [] => []
  | .text _ :: rest => placeholders rest
  | .field name :: rest => name :: placeholders rest

/-! ## fmt.Fprintf without operands -/

/-- The characters that, right after a `%`, start a flag, a width, a precision or an argument
index rather than being the verb. -/
def startsDirectiveOption (c : Char) : Bool :=
  c = '#' || c = '0' || c = '+' || c = '-' || c = ' ' || c = '[' || c = '*' || c = '.' || c.isDigit

/-- The bytes `fmt.Fprintf(w, format)` writes when it is given no operand. Text is copied, `%%`
prints `%`, a `%` followed by a verb character prints `%!` the verb `(MISSING)`, and a `%` that
ends the format prints `%!(NOVERB)`. A directive with flags, width, precision or an argument
index is outside the embedded part (`none`). -/
def formatNoOperands : List Char → Option (List Char)
  | [] => some []
  | [c] => if c = '%' then some "%!(NOVERB)".data else some [c]
  | c :: verb :: rest =>
    if c = '%' then
      if verb = '%' then (formatNoOperands rest).map (fun out => '%' :: out)
      else if startsDirectiveOption verb then none
      else (formatNoOperands rest).map (fun out => "%!".data ++ verb :: "(MISSING)".data ++ out)
    else (formatNoOperands (verb :: rest)).map (fun out => c :: out)

/-- The call `fmt.Fprintf(ui.Out, format)` with a computed format and no operand. -/
def fprintfNoOperands (ui : UI) (format : String) : Outcome :=
  match formatNoOperands format.data with
  | some out => .completed (ui.write .Out (String.mk out))
  | none => .unsupported

/-! ## The operations of the facade -/

/-- The method `UI.outputTextToBuffer`. `template.Must` panics on a parse error, before anything
is written; the error `Execute` returns is discarded. -/
def outputTextToBuffer (ui : UI) (writer : Writer) (formattedString : String)
    (includeNewline : Bool) (keys : List KeyMap) : Outcome :=
  let mergedMap := mergeMap keys
  let translatedFormatString := ui.translate formattedString [some mergedMap]
  match Parse translatedFormatString with
  | .malformed => .panicked ui
  | .unsupported => .unsupported
  | .ok formattedTemplate =>
    let ui1 := ui.write writer (Execute formattedTemplate mergedMap)
    if includeNewline then .completed (ui1.write writer "\n") else .completed ui1

/-- The method `UI.DisplayText`. -/
def DisplayText (ui : UI) (formattedString : String) (keys : List KeyMap) : Outcome :=
  outputTextToBuffer ui .Out formattedString true keys

/-- The loop of `DisplayTextWithKeyTranslations`:
`mergedMap[key] = ui.translate(mergedMap[key].(string))` for each key in turn. The type assertion
panics when the key is absent or its value is no string; the error value is the map at the
panic. -/
def translateKeys (ui : UI) : List String → KeyMap → Except KeyMap KeyMap
  | [], mergedMap => .ok mergedMap
  | key :: rest, mergedMap =>
    match mergedMap key with
    | some (.str s) => translateKeys ui rest (mergedMap.set key (.str (ui.translate s [])))
    | _ => .error mergedMap

/-- The caller's maps after a call that assigned into the merged map, whose final content is
`merged`: `mergeMap` returns the caller's own map when it is given exactly one, and a fresh map
otherwise. -/
def keysAfter (keys : List KeyMap) (merged : KeyMap) : List KeyMap :=
  match keys with
  | [_] => [merged]
  | _ => keys

/-- The method `UI.DisplayTextWithKeyTranslations`. -/
def DisplayTextWithKeyTranslations (ui : UI) (formattedString : String)
    (keysToTranslate : List String) (keys : List KeyMap) : Effect :=
  let mergedMap := mergeMap keys
  match translateKeys ui keysToTranslate mergedMap with
  | .error atPanic => { outcome := .panicked ui, keys := keysAfter keys atPanic }
  | .ok mergedMap =>
    { outcome := outputTextToBuffer ui .Out formattedString true [mergedMap],
      keys := keysAfter keys mergedMap }

/-- The method `UI.DisplayNewline`. -/
def DisplayNewline (ui : UI) : Outcome :=
  .completed (ui.write .Out "\n")

/-- The method `UI.DisplayPair` (its first parameter is `attribute` in the source). The
template is rendered into a buffer, and one `Fprintf` with
the format `%s: %s\n` writes the translated attribute and the buffer. -/
def DisplayPair (ui : UI) (attributeName formattedString : String) (keys : List KeyMap) : Outcome :=
  let mergedMap := mergeMap keys
  let translatedFormatString := ui.translate formattedString [some mergedMap]
  match Parse translatedFormatString with
  | .malformed => .panicked ui
  | .unsupported => .unsupported
  | .ok formattedTemplate =>
    let buffer := Execute formattedTemplate mergedMap
    .completed (ui.write .Out (ui.translate attributeName [] ++ ": " ++ buffer ++ "\n"))

/-- A call followed by `ui.DisplayNewline()`. -/
def thenDisplayNewline : Outcome → Outcome
  | .completed ui => DisplayNewline ui
  | .panicked ui => .panicked ui
  | .unsupported => .unsupported

/-- The method `UI.DisplayHelpHeader`. The colorized text is the format of the `Fprintf`. -/
def DisplayHelpHeader (ui : UI) (text : String) : Outcome :=
  thenDisplayNewline
    (fprintfNoOperands ui (colorize ui (ui.translate text []) defaultFgColor true))

/-- The loop of `DisplayHeaderFlavorText`:
`mergedMap[key] = ui.colorize(fmt.Sprint(value), cyan, true)` for every key of the map. -/
def colorizeValues (ui : UI) (mergedMap : KeyMap) : KeyMap :=
  fun key => (mergedMap key).map (fun value => Value.str (colorize ui (Sprint value) cyan true))

/-- The method `UI.DisplayHeaderFlavorText`. -/
def DisplayHeaderFlavorText (ui : UI) (text : String) (keys : List KeyMap) : Effect :=
  let mergedMap := colorizeValues ui (mergeMap keys)
  { outcome := outputTextToBuffer ui .Out text true [mergedMap],
    keys := keysAfter keys mergedMap }

/-- The method `UI.DisplayOK`. -/
def DisplayOK (ui : UI) : Outcome :=
  let translatedFormatString := ui.translate "OK" [none]
  thenDisplayNewline (fprintfNoOperands ui (colorize ui translatedFormatString green true))

/-- The method `UI.DisplayFailed`. -/
def DisplayFailed (ui : UI) : Outcome :=
  let translatedFormatString := ui.translate "FAILED" [none]
  thenDisplayNewline (fprintfNoOperands ui (colorize ui translatedFormatString red true))

/-- The method `UI.DisplayErrorMessage`. -/
def DisplayErrorMessage (ui : UI) (err : String) (keys : List KeyMap) : Outcome :=
  outputTextToBuffer ui .Err err true keys

/-! ## processURL of `commands/v2/api_command.go` -/

/-- The function `strings.HasPrefix(s, pre)`. -/
def HasPrefix (s pre : String) : Bool := pre.data.isPrefixOf s.data

/-- The method `ApiCommand.processURL`; `Execute` hands its result to `Actor.SetTarget`. -/
def processURL (apiURL : String) : String :=
  if ! HasPrefix apiURL "http" then "https://" ++ apiURL
  else apiURL

/-! ## Specification-side definitions -/

/-- The interpolation of a parsed template in the words of the specification: every placeholder
is replaced by the printed value of its key, and there is no result when a placeholder names a
key that is not in the map. -/
def interpolateNodes (m : KeyMap) : List Node → Option String
  | [] => some ""
  | .text s :: rest => (interpolateNodes m rest).map (fun tail => s ++ tail)
  | .field name :: rest =>
    match m name with
    | some v => (interpolateNodes m rest).map (fun tail => Sprint v ++ tail)
    | none => none

/-- The interpolation `interpolate(template, substitutions)` of the specification. -/
def interpolate (template : String) (m : KeyMap) : Option String :=
  match Parse template with
  | .ok nodes => interpolateNodes m nodes
  | _ => none

/-- The key translation in the words of the specification: the value `v` of each listed key is
replaced by `translate(v)`, the value of every key that is not listed stays. -/
def translateListedKeys (ui : UI) (keysToTranslate : List String) (m : KeyMap) : KeyMap :=
  fun k =>
    if k ∈ keysToTranslate then
      match m k with
      | some (.str s) => some (.str (ui.translate s []))
      | other => other
    else m k

/-- The key translation with repetitions counted: the string value of a key is passed through
`translate` once for each occurrence of the key in the list. -/
def translatePerOccurrence (ui : UI) (keysToTranslate : List String) (m : KeyMap) : KeyMap :=
  fun k =>
    match m k with
    | some (.str s) => some (.str ((fun x => ui.translate x [])^[keysToTranslate.count k] s))
    | other => other

/-- The newline contract for one call: `after` is `before` with `rendered` and then one newline
appended to the writer `w`, the other writer being as before; the appended bytes are not empty
and their last character is the newline. -/
def AppendsLine (before : UI) (w : Writer) (rendered : String) (after : UI) : Prop :=
  after = before.write w (rendered ++ "\n") ∧
  rendered ++ "\n" ≠ "" ∧
  (rendered ++ "\n").data.getLast? = some '\n'

/-! ## Concrete inputs -/

/-- The map of the first scenario of the specification. -/
def someMapValue : KeyMap := KeyMap.ofList [("SomeMapValue", .str "my-map-value")]

/-- The map of the fifth scenario of the specification. -/
def appName : KeyMap := KeyMap.ofList [("AppName", .str "some-app-name")]

/-- A UI whose translation sends `a` to `b` and `b` to `c` and every other string to itself. -/
def chainUI : UI :=
  { NewTestUI "" "" with
    translate := fun s _ => if s = "a" then "b" else if s = "b" then "c" else s }

/-- A map with the two keys `K` and `N`, both with the value `a`. -/
def twoKeys : KeyMap := KeyMap.ofList [("K", .str "a"), ("N", .str "a")]

/-- The test UI with colour enabled. -/
def colorUI : UI := { NewTestUI "" "" with colorEnabled := .ColorEnabled }

/-- The map of the `DisplayHeaderFlavorText` test. -/
def keyValue : KeyMap := KeyMap.ofList [("Key", .str "Value")]

/-! ## Lemmas on maps -/

theorem foldl_assignAll_apply (maps : List KeyMap) (init : KeyMap) (k : String) :
    (maps.foldl (fun main minor => main.assignAll minor) init) k =
      match rightmostWins maps k with
      | some v => some v
      | none => init k := by
  induction maps generalizing init with
  | nil => simp [rightmostWins]
  | cons m rest ih =>
    rw [List.foldl_cons, ih, rightmostWins]
    cases h : rightmostWins rest k with
    | some v => rfl
    | none =>
      simp only [KeyMap.assignAll]

theorem mergeMap_apply (maps : List KeyMap) (k : String) :
    mergeMap maps k = rightmostWins maps k := by
  match maps with
  | [] => rfl
  | [only] =>
    simp only [mergeMap, rightmostWins]
  | a :: b :: rest =>
    simp only [mergeMap]
    rw [foldl_assignAll_apply]
    cases rightmostWins (a :: b :: rest) k <;> rfl

theorem rightmostWins_eq_none (maps : List KeyMap) (k : String) :
    rightmostWins maps k = none ↔ ∀ m ∈ maps, m k = none := by
  induction maps with
  | nil => simp [rightmostWins]
  | cons m rest ih =>
    rw [rightmostWins]
    cases hr : rightmostWins rest k with
    | some w =>
      simp only [List.mem_cons, forall_eq_or_imp, false_iff, not_and, reduceCtorEq]
      intro _ hall
      rw [ih.mpr hall] at hr
      cases hr
    | none =>
      simp only [List.mem_cons, forall_eq_or_imp]
      exact ⟨fun h => ⟨h, ih.mp hr⟩, fun h => h.1⟩

theorem rightmostWins_eq_some (maps : List KeyMap) (k : String) (v : Value) :
    rightmostWins maps k = some v ↔
      ∃ pre m post, maps = pre ++ m :: post ∧ m k = some v ∧ ∀ later ∈ post, later k = none := by
  induction maps with
  | nil => simp [rightmostWins]
  | cons m rest ih =>
    rw [rightmostWins]
    constructor
    · intro h
      cases hr : rightmostWins rest k with
      | some w =>
        rw [hr] at h
        cases h
        obtain ⟨pre, m2, post, hsplit, hm2, hpost⟩ := ih.mp hr
        exact ⟨m :: pre, m2, post, by rw [hsplit]; rfl, hm2, hpost⟩
      | none =>
        rw [hr] at h
        exact ⟨[], m, rest, rfl, h, (rightmostWins_eq_none rest k).mp hr⟩
    · rintro ⟨pre, m2, post, hsplit, hm2, hpost⟩
      cases pre with
      | nil =>
        simp only [List.nil_append, List.cons.injEq] at hsplit
        obtain ⟨rfl, rfl⟩ := hsplit
        rw [(rightmostWins_eq_none rest k).mpr hpost]
        exact hm2
      | cons p pre2 =>
        simp only [List.cons_append, List.cons.injEq] at hsplit
        obtain ⟨rfl, hrest⟩ := hsplit
        rw [ih.mpr ⟨pre2, m2, post, hrest, hm2, hpost⟩]

/-! ## Lemmas on templates and writers -/

theorem findDelim_length (b : Char) (cs before after : List Char)
    (h : findDelim b cs = some (before, after)) : after.length + 2 ≤ cs.length := by
  induction cs generalizing before after with
  | nil => simp [findDelim] at h
  | cons c rest ih =>
    rw [findDelim] at h
    split at h
    · rename_i hfound
      cases rest with
      | nil => simp at hfound
      | cons d tail =>
        simp only [Option.some.injEq, Prod.mk.injEq, List.tail_cons] at h
        rw [← h.2]
        simp
    · cases hrest : findDelim b rest with
      | none => simp [hrest] at h
      | some p =>
        obtain ⟨p1, p2⟩ := p
        have hlen := ih p1 p2 hrest
        simp only [hrest, Option.map_some', Option.some.injEq, Prod.mk.injEq] at h
        rw [← h.2]
        simp only [List.length_cons]
        omega

/-- The fuel of `Parse` never runs out: any two amounts of fuel above the length of the text
give the same result. -/
theorem parseNodes_fuel (n m : Nat) (cs : List Char) (hn : cs.length < n) (hm : cs.length < m) :
    parseNodes n cs = parseNodes m cs := by
  induction n generalizing m cs with
  | zero => omega
  | succ n ih =>
    cases m with
    | zero => omega
    | succ m =>
      rw [parseNodes, parseNodes]
      cases hopen : findDelim leftBrace cs with
      | none => rfl
      | some p =>
        obtain ⟨before, inside⟩ := p
        have h1 := findDelim_length leftBrace cs before inside hopen
        cases hclose : findDelim rightBrace inside with
        | none => simp only [hclose]
        | some q =>
          obtain ⟨body, after⟩ := q
          have h2 := findDelim_length rightBrace inside body after hclose
          cases hname : fieldName body with
          | none => simp only [hclose, hname]
          | some name =>
            simp only [hclose, hname]
            rw [ih m after (by omega) (by omega)]

theorem foldl_executeNode (data : KeyMap) (nodes : List Node) (written : String) :
    nodes.foldl (fun written node => written ++ executeNode data node) written =
      written ++ Execute nodes data := by
  induction nodes generalizing written with
  | nil => simp [Execute]
  | cons node rest ih =>
    rw [Execute, List.foldl_cons, List.foldl_cons, ih, ih ("" ++ executeNode data node)]
    simp [String.append_assoc]

theorem Execute_cons (data : KeyMap) (node : Node) (rest : List Node) :
    Execute (node :: rest) data = executeNode data node ++ Execute rest data := by
  rw [Execute, List.foldl_cons, foldl_executeNode]
  simp

theorem interpolateNodes_eq_Execute (m : KeyMap) (nodes : List Node)
    (hkeys : ∀ k ∈ placeholders nodes, ∃ v, m k = some v) :
    interpolateNodes m nodes = some (Execute nodes m) := by
  induction nodes with
  | nil => rfl
  | cons node rest ih =>
    cases node with
    | text s =>
      rw [interpolateNodes, ih (fun k hk => hkeys k (by simpa [placeholders] using hk)),
        Execute_cons]
      rfl
    | field name =>
      obtain ⟨v, hv⟩ := hkeys name (by simp [placeholders])
      have hrest := ih (fun k hk => hkeys k (by simp [placeholders, hk]))
      rw [Execute_cons]
      simp only [interpolateNodes, hv, hrest, executeNode, Option.map_some']

theorem write_write (ui : UI) (w : Writer) (a b : String) :
    (ui.write w a).write w b = ui.write w (a ++ b) := by
  cases w <;> simp [UI.write, String.append_assoc]

theorem outputTextToBuffer_ok (ui : UI) (writer : Writer) (formattedString : String)
    (keys : List KeyMap) (nodes : List Node)
    (hparse : Parse (ui.translate formattedString [some (mergeMap keys)]) = .ok nodes) :
    outputTextToBuffer ui writer formattedString true keys =
      .completed (ui.write writer (Execute nodes (mergeMap keys) ++ "\n")) := by
  simp only [outputTextToBuffer, hparse, if_true, write_write]

theorem outputTextToBuffer_malformed (ui : UI) (writer : Writer) (formattedString : String)
    (includeNewline : Bool) (keys : List KeyMap)
    (hparse : Parse (ui.translate formattedString [some (mergeMap keys)]) = .malformed) :
    outputTextToBuffer ui writer formattedString includeNewline keys = .panicked ui := by
  simp only [outputTextToBuffer, hparse]

theorem outputTextToBuffer_unsupported (ui : UI) (writer : Writer) (formattedString : String)
    (includeNewline : Bool) (keys : List KeyMap)
    (hparse : Parse (ui.translate formattedString [some (mergeMap keys)]) = .unsupported) :
    outputTextToBuffer ui writer formattedString includeNewline keys = .unsupported := by
  simp only [outputTextToBuffer, hparse]

theorem translateKeys_ok (ui : UI) (keysToTranslate : List String) (m : KeyMap)
    (hstr : ∀ key ∈ keysToTranslate, ∃ s, m key = some (.str s)) :
    translateKeys ui keysToTranslate m = .ok (translatePerOccurrence ui keysToTranslate m) := by
  induction keysToTranslate generalizing m with
  | nil =>
    rw [translateKeys]
    congr 1
    funext k
    simp only [translatePerOccurrence, List.count_nil, Function.iterate_zero, id_eq]
    split <;> simp_all
  | cons key rest ih =>
    obtain ⟨s, hs⟩ := hstr key (List.mem_cons_self key rest)
    rw [translateKeys]
    simp only [hs]
    rw [ih]
    · congr 1
      funext k
      by_cases hk : k = key
      · subst hk
        simp only [translatePerOccurrence, KeyMap.set, if_true, hs, List.count_cons_self,
          Function.iterate_succ_apply]
      · have hne : ¬ (key == k) = true := by
          simpa using fun h => hk h.symm
        have hcount : List.count k (key :: rest) = List.count k rest := by
          simp [List.count_cons, hne]
        simp only [translatePerOccurrence, KeyMap.set, if_neg hk, hcount]
    · intro key2 hkey2
      by_cases hk : key2 = key
      · exact ⟨ui.translate s [], by simp [KeyMap.set, hk]⟩
      · obtain ⟨s2, hs2⟩ := hstr key2 (List.mem_cons_of_mem key hkey2)
        exact ⟨s2, by simp [KeyMap.set, hk, hs2]⟩

theorem translatePerOccurrence_nodup (ui : UI) (keysToTranslate : List String) (m : KeyMap)
    (hnodup : keysToTranslate.Nodup) :
    translatePerOccurrence ui keysToTranslate m = translateListedKeys ui keysToTranslate m := by
  funext k
  by_cases hk : k ∈ keysToTranslate
  · simp only [translatePerOccurrence, translateListedKeys, if_pos hk,
      List.count_eq_one_of_mem hnodup hk, Function.iterate_one]
  · simp only [translatePerOccurrence, translateListedKeys, if_neg hk,
      List.count_eq_zero_of_not_mem hk, Function.iterate_zero, id_eq]
    split <;> simp_all

theorem Execute_append (data : KeyMap) (front back : List Node) :
    Execute (front ++ back) data = Execute front data ++ Execute back data := by
  induction front with
  | nil => simp [Execute]
  | cons node rest ih =>
    rw [List.cons_append, Execute_cons, Execute_cons, ih, String.append_assoc]

theorem appendsLine_of_eq (before : UI) (w : Writer) (rendered : String) (after : UI)
    (h : after = before.write w (rendered ++ "\n")) : AppendsLine before w rendered after := by
  refine ⟨h, ?_, ?_⟩
  · intro hempty
    have hdata := congrArg String.data hempty
    simp at hdata
  · simp

theorem outputTextToBuffer_completed (ui : UI) (writer : Writer) (formattedString : String)
    (keys : List KeyMap) (after : UI)
    (h : outputTextToBuffer ui writer formattedString true keys = .completed after) :
    ∃ nodes, Parse (ui.translate formattedString [some (mergeMap keys)]) = .ok nodes ∧
      AppendsLine ui writer (Execute nodes (mergeMap keys)) after := by
  cases hparse : Parse (ui.translate formattedString [some (mergeMap keys)]) with
  | ok nodes =>
    rw [outputTextToBuffer_ok ui writer formattedString keys nodes hparse] at h
    exact ⟨nodes, rfl, appendsLine_of_eq _ _ _ _ (Outcome.completed.inj h).symm⟩
  | malformed =>
    rw [outputTextToBuffer_malformed ui writer formattedString true keys hparse] at h
    cases h
  | unsupported =>
    rw [outputTextToBuffer_unsupported ui writer formattedString true keys hparse] at h
    cases h

theorem fprintf_then_newline_completed (ui : UI) (format : String) (after : UI)
    (h : thenDisplayNewline (fprintfNoOperands ui format) = .completed after) :
    ∃ out, formatNoOperands format.data = some out ∧
      AppendsLine ui .Out (String.mk out) after := by
  cases hfmt : formatNoOperands format.data with
  | none =>
    simp only [fprintfNoOperands, hfmt, thenDisplayNewline] at h
    cases h
  | some out =>
    simp only [fprintfNoOperands, hfmt, thenDisplayNewline, DisplayNewline, write_write] at h
    exact ⟨out, rfl, appendsLine_of_eq _ _ _ _ (Outcome.completed.inj h).symm⟩

theorem formatNoOperands_without_percent (cs : List Char) (h : '%' ∉ cs) :
    formatNoOperands cs = some cs := by
  induction cs with
  | nil => rfl
  | cons c rest ih =>
    have hc : c ≠ '%' := fun heq => h (by simp [heq])
    have hrest : '%' ∉ rest := fun hmem => h (List.mem_cons_of_mem c hmem)
    cases rest with
    | nil => simp [formatNoOperands, hc]
    | cons verb rest2 =>
      rw [formatNoOperands]
      simp [hc, ih hrest]

/-- A help header without a `%` in the colorized translation reaches `Out` byte for byte,
followed by a newline. -/
theorem DisplayHelpHeader_without_percent (ui : UI) (text : String)
    (h : '%' ∉ (colorize ui (ui.translate text []) defaultFgColor true).data) :
    DisplayHelpHeader ui text =
      .completed (ui.write .Out (colorize ui (ui.translate text []) defaultFgColor true ++ "\n")) := by
  simp only [DisplayHelpHeader, fprintfNoOperands, formatNoOperands_without_percent _ h,
    thenDisplayNewline, DisplayNewline, write_write]

theorem HasPrefix_trans (s mid pre : String) (h1 : HasPrefix s mid = true)
    (h2 : HasPrefix mid pre = true) : HasPrefix s pre = true := by
  simp only [HasPrefix, List.isPrefixOf_iff_prefix] at *
  exact List.IsPrefix.trans h2 h1

/-- A URL that begins with `http://` or `https://` is returned as it is, and a URL that does not
begin with `http` gets `https://` in front. -/
theorem processURL_cases (apiURL : String) :
    (HasPrefix apiURL "http://" = true ∨ HasPrefix apiURL "https://" = true →
      processURL apiURL = apiURL) ∧
    (HasPrefix apiURL "http" = false → processURL apiURL = "https://" ++ apiURL) := by
  constructor
  · intro h
    have hhttp : HasPrefix apiURL "http" = true := by
      rcases h with h | h
      · exact HasPrefix_trans apiURL "http://" "http" h (by decide)
      · exact HasPrefix_trans apiURL "https://" "http" h (by decide)
    simp [processURL, hhttp]
  · intro h
    simp [processURL, h]

theorem keysAfter_of_length_ne_one (keys : List KeyMap) (merged : KeyMap)
    (h : keys.length ≠ 1) : keysAfter keys merged = keys := by
  match keys with
  | [] => rfl
  | [only] => simp at h
  | a :: b :: rest => rfl

/-! ## C1: mergeMap -/

/-- C1. The method `mergeMap` is the rightmost-wins reference merge: it agrees with
`rightmostWins` on every sequence of maps; a key has the value `v` in the result exactly when
some map of the sequence gives it `v` and no later map contains it; a key is absent from the
result exactly when no map contains it; the result for `[m]` is `m` and the result for the empty
sequence is the empty map. -/
theorem mergeMap_rightmost_wins (maps : List KeyMap) :
    mergeMap maps = rightmostWins maps ∧
    (∀ k v, mergeMap maps k = some v ↔
      ∃ pre m post, maps = pre ++ m :: post ∧ m k = some v ∧ ∀ later ∈ post, later k = none) ∧
    (∀ k, mergeMap maps k = none ↔ ∀ m ∈ maps, m k = none) ∧
    (∀ m : KeyMap, mergeMap [m] = m) ∧
    mergeMap [] = KeyMap.empty := by
  refine ⟨funext (mergeMap_apply maps), ?_, ?_, fun m => rfl, rfl⟩
  · intro k v
    rw [mergeMap_apply]
    exact rightmostWins_eq_some maps k v
  · intro k
    rw [mergeMap_apply]
    exact rightmostWins_eq_none maps k

/-! ## C2, C3: colorize -/

/-- C2. With the colour setting `ColorDisbled`, `colorize` returns its text unchanged, for every
text, every colour attribute and both values of `bold`. -/
theorem colorize_disabled_is_identity (ui : UI) (h : ui.colorEnabled = .ColorDisbled)
    (text : String) (textColor : Int) (bold : Bool) :
    colorize ui text textColor bold = text := by
  simp [colorize, h]

/-- Witness of C2: a text that already holds an escape sequence, on the test UI. -/
theorem colorize_disabled_is_identity_witness :
    colorize (NewTestUI "" "") "\x1b[31mred\x1b[0m" red true = "\x1b[31mred\x1b[0m" :=
  colorize_disabled_is_identity (NewTestUI "" "") rfl "\x1b[31mred\x1b[0m" red true

/-- C3. With the colour setting `ColorEnabled`, `colorize text n true` is `ESC[n;1m`, the text,
`ESC[0m`, and `colorize text n false` is `ESC[nm`, the text, `ESC[0m`. -/
theorem colorize_enabled_wraps (ui : UI) (h : ui.colorEnabled = .ColorEnabled)
    (text : String) (n : Int) :
    colorize ui text n true = escape ++ "[" ++ toString n ++ ";1m" ++ text ++ escape ++ "[0m" ∧
    colorize ui text n false = escape ++ "[" ++ toString n ++ "m" ++ text ++ escape ++ "[0m" := by
  constructor
  · simp [colorize, h, String.append_assoc]
  · simp [colorize, h, String.append_assoc]

/-- Witness of C3: green bold `OK` is `ESC[32;1mOKESC[0m`. -/
theorem colorize_enabled_wraps_witness :
    colorize { NewTestUI "" "" with colorEnabled := .ColorEnabled } "OK" green true
      = "\x1b[32;1mOK\x1b[0m" :=
  (colorize_enabled_wraps { NewTestUI "" "" with colorEnabled := .ColorEnabled } rfl "OK" green).1

/-! ## C4, C5: DisplayText and DisplayPair -/

/-- C4. When the translated template parses and each of its placeholders names a key of the
merged map, `DisplayText` completes and appends to `Out` exactly the interpolation of the
translated template against the merged map, followed by a newline, and leaves `Err` as it was;
when the translation returns the template unchanged, this is the interpolation of the template
itself. -/
theorem DisplayText_appends_interpolation (ui : UI) (template : String) (maps : List KeyMap)
    (nodes : List Node)
    (hparse : Parse (ui.translate template [some (mergeMap maps)]) = .ok nodes)
    (hkeys : ∀ k ∈ placeholders nodes, ∃ v, mergeMap maps k = some v) :
    ∃ text,
      interpolate (ui.translate template [some (mergeMap maps)]) (mergeMap maps) = some text ∧
      DisplayText ui template maps = .completed { ui with Out := ui.Out ++ (text ++ "\n") } ∧
      (ui.translate template [some (mergeMap maps)] = template →
        interpolate template (mergeMap maps) = some text) := by
  have hint : interpolate (ui.translate template [some (mergeMap maps)]) (mergeMap maps)
      = some (Execute nodes (mergeMap maps)) := by
    simp only [interpolate, hparse]
    exact interpolateNodes_eq_Execute _ _ hkeys
  refine ⟨Execute nodes (mergeMap maps), hint, ?_, ?_⟩
  · rw [DisplayText, outputTextToBuffer_ok ui .Out template maps nodes hparse]
    rfl
  · intro hmiss
    rw [hmiss] at hint
    exact hint

/-- Witness of C4: the template `some-string` followed by the placeholder `SomeMapValue`, on the
test UI, gives `some-string my-map-value` and a newline. -/
theorem DisplayText_appends_interpolation_witness :
    DisplayText (NewTestUI "" "") "some-string \x7b\x7b.SomeMapValue\x7d\x7d" [someMapValue]
      = .completed { NewTestUI "" "" with Out := "some-string my-map-value\n" } := by
  obtain ⟨text, htext, hout, _⟩ :=
    DisplayText_appends_interpolation (NewTestUI "" "")
      "some-string \x7b\x7b.SomeMapValue\x7d\x7d" [someMapValue]
      [.text "some-string ", .field "SomeMapValue"] (by decide)
      (by
        intro k hk
        simp only [placeholders, List.mem_singleton] at hk
        subst hk
        exact ⟨.str "my-map-value", by decide⟩)
  have hval : interpolate "some-string \x7b\x7b.SomeMapValue\x7d\x7d" (mergeMap [someMapValue])
      = some "some-string my-map-value" := by decide
  have htext2 : text = "some-string my-map-value" := by
    have := htext.symm.trans hval
    exact Option.some.inj this
  rw [hout, htext2]
  rfl

/-- C5. When the translated template parses and each of its placeholders names a key of the
merged map, `DisplayPair` completes and appends to `Out` exactly the translated label, a colon
and a blank, the interpolation of the translated template, and a newline; `Err` stays as it
was. -/
theorem DisplayPair_appends_pair (ui : UI) (label template : String) (maps : List KeyMap)
    (nodes : List Node)
    (hparse : Parse (ui.translate template [some (mergeMap maps)]) = .ok nodes)
    (hkeys : ∀ k ∈ placeholders nodes, ∃ v, mergeMap maps k = some v) :
    ∃ text,
      interpolate (ui.translate template [some (mergeMap maps)]) (mergeMap maps) = some text ∧
      DisplayPair ui label template maps =
        .completed { ui with Out := ui.Out ++ (ui.translate label [] ++ ": " ++ text ++ "\n") } := by
  refine ⟨Execute nodes (mergeMap maps), ?_, ?_⟩
  · simp only [interpolate, hparse]
    exact interpolateNodes_eq_Execute _ _ hkeys
  · simp only [DisplayPair, hparse]
    rfl

/-- Witness of C5: the pair `some-key` and `App <AppName> does not exist.` on the test UI. -/
theorem DisplayPair_appends_pair_witness :
    DisplayPair (NewTestUI "" "") "some-key" "App \x7b\x7b.AppName\x7d\x7d does not exist."
        [appName]
      = .completed { NewTestUI "" "" with
          Out := "some-key: App some-app-name does not exist.\n" } := by
  obtain ⟨text, htext, hout⟩ :=
    DisplayPair_appends_pair (NewTestUI "" "") "some-key"
      "App \x7b\x7b.AppName\x7d\x7d does not exist." [appName]
      [.text "App ", .field "AppName", .text " does not exist."] (by decide)
      (by
        intro k hk
        simp only [placeholders, List.mem_singleton] at hk
        subst hk
        exact ⟨.str "some-app-name", by decide⟩)
  have hval : interpolate "App \x7b\x7b.AppName\x7d\x7d does not exist." (mergeMap [appName])
      = some "App some-app-name does not exist." := by decide
  have htext2 : text = "App some-app-name does not exist." :=
    Option.some.inj (htext.symm.trans hval)
  rw [hout, htext2]
  rfl

/-! ## C6: DisplayErrorMessage -/

/-- C6. `DisplayErrorMessage` is `DisplayText` retargeted to `Err`. Every call ends in one of
three ways, the same for both: both complete, and the bytes `DisplayErrorMessage` appends to
`Err` are the bytes `DisplayText` appends to `Out`, while `DisplayErrorMessage` leaves `Out` and
`DisplayText` leaves `Err` as it was; or both panic with nothing written; or the template is
outside the embedded templates for both. -/
theorem DisplayErrorMessage_retargets_DisplayText (ui : UI) (template : String)
    (maps : List KeyMap) :
    (∃ bytes,
      DisplayText ui template maps = .completed { ui with Out := ui.Out ++ bytes } ∧
      DisplayErrorMessage ui template maps = .completed { ui with Err := ui.Err ++ bytes }) ∨
    (DisplayText ui template maps = .panicked ui ∧
      DisplayErrorMessage ui template maps = .panicked ui) ∨
    (DisplayText ui template maps = .unsupported ∧
      DisplayErrorMessage ui template maps = .unsupported) := by
  cases hparse : Parse (ui.translate template [some (mergeMap maps)]) with
  | ok nodes =>
    refine Or.inl ⟨Execute nodes (mergeMap maps) ++ "\n", ?_, ?_⟩
    · rw [DisplayText, outputTextToBuffer_ok ui .Out template maps nodes hparse]
      rfl
    · rw [DisplayErrorMessage, outputTextToBuffer_ok ui .Err template maps nodes hparse]
      rfl
  | malformed =>
    exact Or.inr (Or.inl ⟨outputTextToBuffer_malformed ui .Out template true maps hparse,
      outputTextToBuffer_malformed ui .Err template true maps hparse⟩)
  | unsupported =>
    exact Or.inr (Or.inr ⟨outputTextToBuffer_unsupported ui .Out template true maps hparse,
      outputTextToBuffer_unsupported ui .Err template true maps hparse⟩)

/-! ## C7: DisplayTextWithKeyTranslations -/

/-- C7 as stated fails when a key is listed twice: with the key list `K, K` the code translates
the value of `K` twice and prints `c`, where the map of the specification holds
`translate(a) = b`. -/
theorem keyTranslation_listed_twice_counterexample :
    (∀ key ∈ ["K", "K"], ∃ s, mergeMap [twoKeys] key = some (.str s)) ∧
    (DisplayTextWithKeyTranslations chainUI "\x7b\x7b.K\x7d\x7d" ["K", "K"] [twoKeys]).outcome
      = .completed { chainUI with Out := "c\n" } ∧
    DisplayText chainUI "\x7b\x7b.K\x7d\x7d"
        [translateListedKeys chainUI ["K", "K"] (mergeMap [twoKeys])]
      = .completed { chainUI with Out := "b\n" } ∧
    (DisplayTextWithKeyTranslations chainUI "\x7b\x7b.K\x7d\x7d" ["K", "K"] [twoKeys]).outcome
      ≠ DisplayText chainUI "\x7b\x7b.K\x7d\x7d"
          [translateListedKeys chainUI ["K", "K"] (mergeMap [twoKeys])] := by
  have h1 : (DisplayTextWithKeyTranslations chainUI "\x7b\x7b.K\x7d\x7d" ["K", "K"]
      [twoKeys]).outcome = .completed { chainUI with Out := "c\n" } := rfl
  have h2 : DisplayText chainUI "\x7b\x7b.K\x7d\x7d"
      [translateListedKeys chainUI ["K", "K"] (mergeMap [twoKeys])]
      = .completed { chainUI with Out := "b\n" } := rfl
  refine ⟨?_, h1, h2, ?_⟩
  · intro key hkey
    have hK : key = "K" := by simpa using hkey
    subst hK
    exact ⟨"a", by decide⟩
  · rw [h1, h2]
    intro h
    have hout : ({ chainUI with Out := "c\n" } : UI).Out = ({ chainUI with Out := "b\n" } : UI).Out :=
      congrArg UI.Out (Outcome.completed.inj h)
    exact absurd hout (by decide)

/-- C7, amended. When each listed key is in the merged map with a string value,
`DisplayTextWithKeyTranslations` ends as `DisplayText` does on the map obtained from the merged
map by passing the value of each listed key through `translate` once for each occurrence of the
key in the list. The value of a key that is not listed is the merged value, and for a list
without repetitions the map is the one of the specification: `translate(v)` for each listed key. -/
theorem DisplayTextWithKeyTranslations_translates_per_occurrence (ui : UI) (template : String)
    (keysToTranslate : List String) (maps : List KeyMap)
    (hstr : ∀ key ∈ keysToTranslate, ∃ s, mergeMap maps key = some (.str s)) :
    (DisplayTextWithKeyTranslations ui template keysToTranslate maps).outcome
      = DisplayText ui template [translatePerOccurrence ui keysToTranslate (mergeMap maps)] ∧
    (∀ k, k ∉ keysToTranslate →
      translatePerOccurrence ui keysToTranslate (mergeMap maps) k = mergeMap maps k) ∧
    (keysToTranslate.Nodup →
      translatePerOccurrence ui keysToTranslate (mergeMap maps)
        = translateListedKeys ui keysToTranslate (mergeMap maps)) := by
  refine ⟨?_, ?_, translatePerOccurrence_nodup ui keysToTranslate (mergeMap maps)⟩
  · simp only [DisplayTextWithKeyTranslations, translateKeys_ok ui keysToTranslate _ hstr,
      DisplayText]
  · intro k hk
    simp only [translatePerOccurrence, List.count_eq_zero_of_not_mem hk, Function.iterate_zero,
      id_eq]
    split <;> simp_all

/-- Witness of the amended C7: with only `K` listed, the value of `K` is translated and the value
of `N`, the same string, is not. -/
theorem DisplayTextWithKeyTranslations_translates_per_occurrence_witness :
    (DisplayTextWithKeyTranslations chainUI "\x7b\x7b.K\x7d\x7d \x7b\x7b.N\x7d\x7d" ["K"]
        [twoKeys]).outcome
      = .completed { chainUI with Out := "b a\n" } := by
  have hstr : ∀ key ∈ ["K"], ∃ s, mergeMap [twoKeys] key = some (.str s) := by
    intro key hkey
    have hK : key = "K" := by simpa using hkey
    subst hK
    exact ⟨"a", by decide⟩
  rw [(DisplayTextWithKeyTranslations_translates_per_occurrence chainUI
    "\x7b\x7b.K\x7d\x7d \x7b\x7b.N\x7d\x7d" ["K"] [twoKeys] hstr).1]
  rfl

/-! ## C8: the newline contract -/

/-- C8. Each Display operation other than `DisplayNewline` and `DisplayTable`, when it
completes, has appended to its writer (`Err` for `DisplayErrorMessage`, `Out` for the others) its
rendered text followed by one newline and left the other writer as it was; the appended bytes
are not empty and end with the newline. The rendered text is what `Execute` writes for the parsed
translated template (after the label and a colon for `DisplayPair`), and what `Fprintf` writes
for the colorized translation for `DisplayHelpHeader`, `DisplayOK` and `DisplayFailed`. -/
theorem display_operations_append_one_newline (ui after : UI) :
    (∀ template maps, DisplayText ui template maps = .completed after →
      ∃ nodes, Parse (ui.translate template [some (mergeMap maps)]) = .ok nodes ∧
        AppendsLine ui .Out (Execute nodes (mergeMap maps)) after) ∧
    (∀ template keysToTranslate maps,
      (DisplayTextWithKeyTranslations ui template keysToTranslate maps).outcome
        = .completed after →
      ∃ m nodes, translateKeys ui keysToTranslate (mergeMap maps) = .ok m ∧
        Parse (ui.translate template [some m]) = .ok nodes ∧
        AppendsLine ui .Out (Execute nodes m) after) ∧
    (∀ label template maps, DisplayPair ui label template maps = .completed after →
      ∃ nodes, Parse (ui.translate template [some (mergeMap maps)]) = .ok nodes ∧
        AppendsLine ui .Out (ui.translate label [] ++ ": " ++ Execute nodes (mergeMap maps))
          after) ∧
    (∀ text, DisplayHelpHeader ui text = .completed after →
      ∃ out, formatNoOperands (colorize ui (ui.translate text []) defaultFgColor true).data
          = some out ∧
        AppendsLine ui .Out (String.mk out) after) ∧
    (∀ template maps, (DisplayHeaderFlavorText ui template maps).outcome = .completed after →
      ∃ nodes,
        Parse (ui.translate template [some (colorizeValues ui (mergeMap maps))]) = .ok nodes ∧
        AppendsLine ui .Out (Execute nodes (colorizeValues ui (mergeMap maps))) after) ∧
    (DisplayOK ui = .completed after →
      ∃ out, formatNoOperands (colorize ui (ui.translate "OK" [none]) green true).data
          = some out ∧
        AppendsLine ui .Out (String.mk out) after) ∧
    (DisplayFailed ui = .completed after →
      ∃ out, formatNoOperands (colorize ui (ui.translate "FAILED" [none]) red true).data
          = some out ∧
        AppendsLine ui .Out (String.mk out) after) ∧
    (∀ template maps, DisplayErrorMessage ui template maps = .completed after →
      ∃ nodes, Parse (ui.translate template [some (mergeMap maps)]) = .ok nodes ∧
        AppendsLine ui .Err (Execute nodes (mergeMap maps)) after) := by
  refine ⟨?_, ?_, ?_, ?_, ?_, ?_, ?_, ?_⟩
  · intro template maps h
    exact outputTextToBuffer_completed ui .Out template maps after h
  · intro template keysToTranslate maps h
    simp only [DisplayTextWithKeyTranslations] at h
    cases hkeys : translateKeys ui keysToTranslate (mergeMap maps) with
    | error atPanic =>
      rw [hkeys] at h
      cases h
    | ok m =>
      rw [hkeys] at h
      obtain ⟨nodes, hparse, hline⟩ := outputTextToBuffer_completed ui .Out template [m] after h
      exact ⟨m, nodes, rfl, hparse, hline⟩
  · intro label template maps h
    simp only [DisplayPair] at h
    cases hparse : Parse (ui.translate template [some (mergeMap maps)]) with
    | ok nodes =>
      rw [hparse] at h
      exact ⟨nodes, rfl, appendsLine_of_eq _ _ _ _ (Outcome.completed.inj h).symm⟩
    | malformed =>
      rw [hparse] at h
      cases h
    | unsupported =>
      rw [hparse] at h
      cases h
  · intro text h
    exact fprintf_then_newline_completed ui _ after h
  · intro template maps h
    exact outputTextToBuffer_completed ui .Out template [colorizeValues ui (mergeMap maps)] after h
  · intro h
    exact fprintf_then_newline_completed ui _ after h
  · intro h
    exact fprintf_then_newline_completed ui _ after h
  · intro template maps h
    exact outputTextToBuffer_completed ui .Err template maps after h

/-- Witness of C8: `DisplayText` of `some-string` on the test UI, and `DisplayOK` with colour
enabled, complete with a line appended to `Out`. -/
theorem display_operations_append_one_newline_witness :
    (∃ nodes, Parse "some-string" = .ok nodes ∧
      AppendsLine (NewTestUI "" "") .Out (Execute nodes (mergeMap []))
        { NewTestUI "" "" with Out := "some-string\n" }) ∧
    (∃ out, formatNoOperands "\x1b[32;1mOK\x1b[0m".data = some out ∧
      AppendsLine colorUI .Out (String.mk out) { colorUI with Out := "\x1b[32;1mOK\x1b[0m\n" }) :=
  ⟨(display_operations_append_one_newline (NewTestUI "" "")
      { NewTestUI "" "" with Out := "some-string\n" }).1 "some-string" [] rfl,
   (display_operations_append_one_newline colorUI
      { colorUI with Out := "\x1b[32;1mOK\x1b[0m\n" }).2.2.2.2.2.1 rfl⟩

/-! ## C9: a placeholder whose key is missing -/

/-- C9 as stated fails: the template `a` followed by the placeholder `K`, with no map at all,
does not panic. `DisplayText` and `DisplayErrorMessage` complete and write the filler
`<no value>` in place of the placeholder. -/
theorem missing_key_is_not_fatal_counterexample :
    Parse "a \x7b\x7b.K\x7d\x7d" = .ok [.text "a ", .field "K"] ∧
    mergeMap [] "K" = none ∧
    DisplayText (NewTestUI "" "") "a \x7b\x7b.K\x7d\x7d" []
      = .completed { NewTestUI "" "" with Out := "a <no value>\n" } ∧
    DisplayErrorMessage (NewTestUI "" "") "a \x7b\x7b.K\x7d\x7d" []
      = .completed { NewTestUI "" "" with Err := "a <no value>\n" } :=
  ⟨by decide, rfl, rfl, rfl⟩

/-- C9, amended. When the translated template parses and has a placeholder `K` whose key is not
in the merged map, `DisplayText` (and `DisplayErrorMessage`, on `Err`) completes: it writes the
rendering of the nodes before the placeholder, the text `<no value>` in its place, the rendering
of the nodes after it, and a newline. -/
theorem missing_key_renders_no_value (ui : UI) (template : String) (maps : List KeyMap)
    (front back : List Node) (K : String)
    (hparse : Parse (ui.translate template [some (mergeMap maps)])
      = .ok (front ++ Node.field K :: back))
    (hmissing : mergeMap maps K = none) :
    DisplayText ui template maps =
      .completed { ui with
        Out := ui.Out ++ (Execute front (mergeMap maps) ++ "<no value>"
          ++ Execute back (mergeMap maps) ++ "\n") } ∧
    DisplayErrorMessage ui template maps =
      .completed { ui with
        Err := ui.Err ++ (Execute front (mergeMap maps) ++ "<no value>"
          ++ Execute back (mergeMap maps) ++ "\n") } := by
  have hexec : Execute (front ++ Node.field K :: back) (mergeMap maps)
      = Execute front (mergeMap maps) ++ "<no value>" ++ Execute back (mergeMap maps) := by
    rw [Execute_append, Execute_cons, String.append_assoc]
    simp only [executeNode, hmissing]
  constructor
  · rw [DisplayText, outputTextToBuffer_ok ui .Out template maps _ hparse, hexec]
    rfl
  · rw [DisplayErrorMessage, outputTextToBuffer_ok ui .Err template maps _ hparse, hexec]
    rfl

/-- Witness of the amended C9: a placeholder without a key between two runs of text. -/
theorem missing_key_renders_no_value_witness :
    DisplayText (NewTestUI "" "") "a \x7b\x7b.K\x7d\x7d b" []
      = .completed { NewTestUI "" "" with Out := "a <no value> b\n" } :=
  (missing_key_renders_no_value (NewTestUI "" "") "a \x7b\x7b.K\x7d\x7d b" []
    [.text "a "] [.text " b"] "K" (by decide) rfl).1

/-! ## C10: a malformed template -/

/-- C10. A template whose translated form fails to parse makes `DisplayText`,
`DisplayErrorMessage`, `DisplayPair`, `DisplayTextWithKeyTranslations` and
`DisplayHeaderFlavorText` panic, with `Out` and `Err` holding what they held before the call.
The translated form is the translation with the map the operation passes to it: the merged map,
the merged map after the key translations, or the merged map with colorized values. -/
theorem malformed_template_panics_without_output (ui : UI) (template label : String)
    (keysToTranslate : List String) (maps : List KeyMap) :
    (Parse (ui.translate template [some (mergeMap maps)]) = .malformed →
      DisplayText ui template maps = .panicked ui ∧
      DisplayErrorMessage ui template maps = .panicked ui ∧
      DisplayPair ui label template maps = .panicked ui) ∧
    ((∀ m, translateKeys ui keysToTranslate (mergeMap maps) = .ok m →
        Parse (ui.translate template [some m]) = .malformed) →
      (DisplayTextWithKeyTranslations ui template keysToTranslate maps).outcome
        = .panicked ui) ∧
    (Parse (ui.translate template [some (colorizeValues ui (mergeMap maps))]) = .malformed →
      (DisplayHeaderFlavorText ui template maps).outcome = .panicked ui) := by
  refine ⟨?_, ?_, ?_⟩
  · intro hparse
    refine ⟨outputTextToBuffer_malformed ui .Out template true maps hparse,
      outputTextToBuffer_malformed ui .Err template true maps hparse, ?_⟩
    simp only [DisplayPair, hparse]
  · intro hparse
    simp only [DisplayTextWithKeyTranslations]
    cases hkeys : translateKeys ui keysToTranslate (mergeMap maps) with
    | error atPanic => rfl
    | ok m => exact outputTextToBuffer_malformed ui .Out template true [m] (hparse m hkeys)
  · intro hparse
    exact outputTextToBuffer_malformed ui .Out template true _ hparse

/-- Witness of C10: a template with an action that is never closed, on the test UI with the
bytes `kept` already in `Out` and `also kept` in `Err`. -/
theorem malformed_template_panics_without_output_witness :
    Parse "App \x7b\x7b.AppName" = .malformed ∧
    DisplayText (NewTestUI "kept" "also kept") "App \x7b\x7b.AppName" [appName]
      = .panicked (NewTestUI "kept" "also kept") ∧
    DisplayErrorMessage (NewTestUI "kept" "also kept") "App \x7b\x7b.AppName" [appName]
      = .panicked (NewTestUI "kept" "also kept") ∧
    DisplayPair (NewTestUI "kept" "also kept") "some-key" "App \x7b\x7b.AppName" [appName]
      = .panicked (NewTestUI "kept" "also kept") ∧
    (DisplayTextWithKeyTranslations (NewTestUI "kept" "also kept") "App \x7b\x7b.AppName"
        ["AppName"] [appName]).outcome
      = .panicked (NewTestUI "kept" "also kept") ∧
    (DisplayHeaderFlavorText (NewTestUI "kept" "also kept") "App \x7b\x7b.AppName"
        [appName]).outcome
      = .panicked (NewTestUI "kept" "also kept") := by
  have h := malformed_template_panics_without_output (NewTestUI "kept" "also kept")
    "App \x7b\x7b.AppName" "some-key" ["AppName"] [appName]
  have hbad : Parse "App \x7b\x7b.AppName" = .malformed := by decide
  exact ⟨hbad, (h.1 hbad).1, (h.1 hbad).2.1, (h.1 hbad).2.2, h.2.1 (fun _ _ => hbad),
    h.2.2 hbad⟩

/-! ## C11: DisplayHeaderFlavorText -/

/-- C11. `DisplayHeaderFlavorText` ends as `DisplayText` does on the map that sends each key of
the merged map to the colorized (cyan, bold) string form of its value. With colour enabled that
value is `ESC[36;1m`, the string form, `ESC[0m`; with colour disabled and string values the call
ends as `DisplayText` does on the same arguments. -/
theorem DisplayHeaderFlavorText_colorizes_values (ui : UI) (template : String)
    (maps : List KeyMap) :
    (∀ k, colorizeValues ui (mergeMap maps) k
      = (mergeMap maps k).map (fun v => Value.str (colorize ui (Sprint v) cyan true))) ∧
    (DisplayHeaderFlavorText ui template maps).outcome
      = DisplayText ui template [colorizeValues ui (mergeMap maps)] ∧
    (ui.colorEnabled = .ColorEnabled → ∀ k v, mergeMap maps k = some v →
      colorizeValues ui (mergeMap maps) k
        = some (.str (escape ++ "[36;1m" ++ Sprint v ++ escape ++ "[0m"))) ∧
    (ui.colorEnabled = .ColorDisbled → (∀ k v, mergeMap maps k = some v → ∃ s, v = .str s) →
      (DisplayHeaderFlavorText ui template maps).outcome = DisplayText ui template maps) := by
  refine ⟨fun k => rfl, rfl, ?_, ?_⟩
  · intro hon k v hv
    have h36 : "[" ++ (toString (36 : Int) ++ ";1") = "[36;1" := by decide
    simp only [colorizeValues, hv, Option.map_some', colorize, hon, cyan, if_true]
    rw [String.append_assoc escape "[", h36]
    rfl
  · intro hoff hstr
    have hsame : colorizeValues ui (mergeMap maps) = mergeMap maps := by
      funext k
      cases hk : mergeMap maps k with
      | none => simp [colorizeValues, hk]
      | some v =>
        obtain ⟨s, rfl⟩ := hstr k v hk
        simp [colorizeValues, hk, colorize, hoff, Sprint]
    show outputTextToBuffer ui .Out template true [colorizeValues ui (mergeMap maps)]
      = outputTextToBuffer ui .Out template true maps
    rw [hsame]
    rfl

/-- Witness of C11: `some text` and the placeholder `Key` with the value `Value`, colour
enabled. -/
theorem DisplayHeaderFlavorText_colorizes_values_witness :
    (DisplayHeaderFlavorText colorUI "some text \x7b\x7b.Key\x7d\x7d" [keyValue]).outcome
      = .completed { colorUI with Out := "some text \x1b[36;1mValue\x1b[0m\n" } := by
  rw [(DisplayHeaderFlavorText_colorizes_values colorUI "some text \x7b\x7b.Key\x7d\x7d"
    [keyValue]).2.1]
  rfl

/-! ## C12: DisplayHelpHeader -/

/-- C12, on the code. The colorized translation is the format of the `Fprintf`, so a `%` in it
is read as a directive: the text `100%` on the test UI, whose colorized translation is `100%`,
reaches `Out` as `100%!(NOVERB)`, and with colour enabled `50%d` reaches `Out` as
`50%!d(MISSING)` between the escape sequences. -/
theorem DisplayHelpHeader_percent_is_a_directive :
    colorize (NewTestUI "" "") ((NewTestUI "" "").translate "100%" []) defaultFgColor true
      = "100%" ∧
    DisplayHelpHeader (NewTestUI "" "") "100%"
      = .completed { NewTestUI "" "" with Out := "100%!(NOVERB)\n" } ∧
    DisplayHelpHeader colorUI "50%d"
      = .completed { colorUI with Out := "\x1b[38;1m50%!d(MISSING)\x1b[0m\n" } :=
  ⟨by decide, rfl, rfl⟩

/-! ## C13: processURL -/

/-- C13, on the code. The host `httpbin.org` begins with neither `http://` nor `https://`, and
`processURL` returns it as it is, without `https://` in front: the test is on the prefix
`http`. -/
theorem processURL_host_beginning_with_http :
    HasPrefix "httpbin.org" "http://" = false ∧
    HasPrefix "httpbin.org" "https://" = false ∧
    processURL "httpbin.org" = "httpbin.org" ∧
    processURL "httpbin.org" ≠ "https://" ++ "httpbin.org" := by
  decide

/-! ## C14: the caller's maps -/

/-- C14. `DisplayHeaderFlavorText` and `DisplayTextWithKeyTranslations` leave the maps of the
caller as they were when zero or at least two maps are passed. When exactly one map `m` is
passed, the rewrite is applied to `m` itself: after `DisplayHeaderFlavorText` it holds the
colorized values, and after `DisplayTextWithKeyTranslations`, when each listed key has a string
value in `m`, it holds the translated values. -/
theorem value_rewrites_reach_a_single_map (ui : UI) (template : String)
    (keysToTranslate : List String) (maps : List KeyMap) :
    (maps.length ≠ 1 →
      (DisplayHeaderFlavorText ui template maps).keys = maps ∧
      (DisplayTextWithKeyTranslations ui template keysToTranslate maps).keys = maps) ∧
    (∀ m : KeyMap,
      (DisplayHeaderFlavorText ui template [m]).keys = [colorizeValues ui m] ∧
      ∀ k, colorizeValues ui m k
        = (m k).map (fun v => Value.str (colorize ui (Sprint v) cyan true))) ∧
    (∀ m : KeyMap, (∀ key ∈ keysToTranslate, ∃ s, m key = some (.str s)) →
      (DisplayTextWithKeyTranslations ui template keysToTranslate [m]).keys
        = [translatePerOccurrence ui keysToTranslate m]) := by
  refine ⟨?_, fun m => ⟨rfl, fun k => rfl⟩, ?_⟩
  · intro hlen
    constructor
    · exact keysAfter_of_length_ne_one maps _ hlen
    · simp only [DisplayTextWithKeyTranslations]
      cases translateKeys ui keysToTranslate (mergeMap maps) with
      | error atPanic => exact keysAfter_of_length_ne_one maps _ hlen
      | ok merged => exact keysAfter_of_length_ne_one maps _ hlen
  · intro m hstr
    have hok : translateKeys ui keysToTranslate (mergeMap [m])
        = .ok (translatePerOccurrence ui keysToTranslate m) :=
      translateKeys_ok ui keysToTranslate m hstr
    simp only [DisplayTextWithKeyTranslations, hok]
    rfl

/-- Witness of C14: with colour enabled the single map of the caller holds the colorized value
of `Key` after `DisplayHeaderFlavorText`, with the translation of `chainUI` the single map holds
`b` for the listed key `K` and still `a` for `N`, and two maps passed together stay as they
were. -/
theorem value_rewrites_reach_a_single_map_witness :
    ((DisplayHeaderFlavorText colorUI "some text \x7b\x7b.Key\x7d\x7d" [keyValue]).keys.map
        (fun m => m "Key")) = [some (.str "\x1b[36;1mValue\x1b[0m")] ∧
    ((DisplayTextWithKeyTranslations chainUI "\x7b\x7b.K\x7d\x7d" ["K"] [twoKeys]).keys.map
        (fun m => (m "K", m "N"))) = [(some (.str "b"), some (.str "a"))] ∧
    (DisplayHeaderFlavorText colorUI "some text \x7b\x7b.Key\x7d\x7d"
        [keyValue, twoKeys]).keys = [keyValue, twoKeys] := by
  have hcolor := value_rewrites_reach_a_single_map colorUI "some text \x7b\x7b.Key\x7d\x7d"
    ["K"] [keyValue, twoKeys]
  have hone := value_rewrites_reach_a_single_map colorUI "some text \x7b\x7b.Key\x7d\x7d"
    ["K"] [keyValue]
  have htr := value_rewrites_reach_a_single_map chainUI "\x7b\x7b.K\x7d\x7d" ["K"] [twoKeys]
  have hstr : ∀ key ∈ ["K"], ∃ s, twoKeys key = some (.str s) := by
    intro key hkey
    have hK : key = "K" := by simpa using hkey
    subst hK
    exact ⟨"a", by decide⟩
  refine ⟨?_, ?_, (hcolor.1 (by decide)).1⟩
  · rw [(hone.2.1 keyValue).1]
    decide
  · rw [htr.2.2 twoKeys hstr]
    decide

end CfUi
